import Mathlib

/-!
A verification development for the YubiKey monitoring backend
(`backend/app.py`).  The Python source is shallowly embedded: strings are
`List Char` (so every text operation is an executable structural
function), the device-manager command and the database are oracles passed
in explicitly, and the background monitor loop (`yubikey_monitor_task`)
becomes a step function from the previous serial set and one cycle's
oracle answers to the cycle's persisted writes, broadcast payloads and
next state.
-/

namespace YkSpec

/-- Characters of a Python `str`, the representation all embedded text
operations work over. -/
abbrev Chars := List Char

/-- Whitespace in the sense of CPython's `str.strip()` for ASCII text:
space, tab, newline, carriage return, vertical tab, form feed. -/
def isPySpace (c : Char) : Bool :=
  c = ' ' || c = '\t' || c = '\n' || c = '\r' || c = '\x0b' || c = '\x0c'

/-- Embeds Python `s.strip()`: drop leading and trailing whitespace. -/
def pyStrip (cs : Chars) : Chars :=
  ((cs.dropWhile isPySpace).reverse.dropWhile isPySpace).reverse

/-- Embeds Python `s.split(':', 1)[1]`: everything after the first colon.
All call sites in the source guard with `startswith` on a label whose only
colon is its last character, so a colon is always present; on colon-free
input this returns `[]` where Python would raise, an unreachable case. -/
def afterFirstColon : Chars → Chars
  | [] => []
  | c :: cs => if c = ':' then cs else afterFirstColon cs

/-- Embeds Python `s.split('\n')`: split at every newline, keeping empty
pieces, never merging separators. -/
def splitOnNL : Chars → List Chars
  | [] => [[]]
  | c :: cs =>
    if c = '\n' then [] :: splitOnNL cs
    else
      match splitOnNL cs with
      | [] => [[c]]
      | l :: ls => (c :: l) :: ls

/-- Embeds Python `needle in hay` on strings: `true` iff `needle` occurs
as a contiguous substring of `hay`. -/
def containsSub (needle : Chars) : Chars → Bool
  | [] => decide (needle = [])
  | c :: cs => if needle <+: c :: cs then true else containsSub needle cs

/-- The structured result of `parse_yubikey_info` (`app.py:225`): the
three labeled fields the parser extracts. -/
structure YkInfo where
  version : Chars
  form_factor : Chars
  device_type : Chars
deriving DecidableEq

/-- The parser's initial dictionary (`app.py:227-231`). -/
def initYkInfo : YkInfo :=
  ⟨"Unknown".data, "Unknown".data, "YubiKey".data⟩

/-- One iteration of the parser's line loop (`app.py:234-241`): strip the
line, then dispatch on the recognized label prefixes. -/
def processLine (info : YkInfo) (rawLine : Chars) : YkInfo :=
  let line := pyStrip rawLine
  if "Firmware version:".data <+: line then
    { info with version := pyStrip (afterFirstColon line) }
  else if "Form factor:".data <+: line then
    { info with form_factor := pyStrip (afterFirstColon line) }
  else if "Device type:".data <+: line then
    { info with device_type := pyStrip (afterFirstColon line) }
  else info

/-- Embeds `parse_yubikey_info` (`app.py:225-243`): fold the line loop
over the newline-split input, starting from the all-unknown dictionary. -/
def parse_yubikey_info (text : Chars) : YkInfo :=
  (splitOnNL text).foldl processLine initYkInfo

/-- Names one of the parser's three recognized fields, to state lemmas
uniformly over them. -/
inductive YkField
  | version
  | form
  | device
deriving DecidableEq, Fintype

/-- The label whose presence at the start of a stripped line feeds the
given field. -/
def labelOf : YkField → Chars
  | .version => "Firmware version:".data
  | .form => "Form factor:".data
  | .device => "Device type:".data

/-- Projects the given field out of a parse result. -/
def fieldOf : YkField → YkInfo → Chars
  | .version, i => i.version
  | .form, i => i.form_factor
  | .device, i => i.device_type

/-- The value the parser leaves in a field no line ever set. -/
def defaultOf : YkField → Chars
  | .version => "Unknown".data
  | .form => "Unknown".data
  | .device => "YubiKey".data

/-- Spec-side characterization of which line determines a field: the
last line of the input whose stripped form begins with the field's
label (`none` when no line does). -/
def lastMatch (f : YkField) (lines : List Chars) : Option Chars :=
  lines.reverse.find? (fun l => decide (labelOf f <+: pyStrip l))

/-- The value a matching line contributes: everything after its first
colon, whitespace-trimmed (the line itself having been stripped first,
as in the source). -/
def extractedValue (l : Chars) : Chars :=
  pyStrip (afterFirstColon (pyStrip l))

/-- One entry of the per-device attribute dictionaries the monitor loop
and the API handlers build (`app.py:455-458`, `app.py:463`). -/
structure DeviceInfo where
  serial : ℕ
  version : Chars
  form_factor : Chars
  device_type : Chars
  is_fips : Bool
  is_sky : Bool
deriving DecidableEq

/-- The all-unknown fallback record the monitor loop appends when a
per-device probe or save raises (`app.py:463`). -/
def fallbackInfo (s : ℕ) : DeviceInfo :=
  ⟨s, "Unknown".data, "Unknown".data, "YubiKey".data, false, false⟩

/-- The attribute record built from a successful per-device info fetch
(`app.py:455-458`): parsed fields plus the two substring-derived
capability flags. -/
def infoFromRaw (s : ℕ) (raw : Chars) : DeviceInfo :=
  let p := parse_yubikey_info raw
  ⟨s, p.version, p.form_factor, p.device_type,
    containsSub "FIPS".data raw, containsSub "SKY".data raw⟩

/-- A row of the `yubikeys` table (`app.py:43-55`); the autoincrement
`id` column is not referenced by any property and is omitted. -/
structure YubiKeyRow where
  serial : ℕ
  version : Chars
  form_factor : Chars
  device_type : Chars
  is_fips : Bool
  is_sky : Bool
  first_seen : ℕ
  last_seen : ℕ
  raw_info : Chars
deriving DecidableEq

/-- A row of the `yubikey_detections` table (`app.py:76-82`); `id`
omitted as above. -/
structure DetectionRow where
  serial : ℕ
  detected_at : ℕ
  info_snapshot : DeviceInfo
deriving DecidableEq

/-- The database state the Persistence Gateway acts on: the two tables,
each as its list of rows in insertion order. -/
structure DB where
  yubikeys : List YubiKeyRow
  detections : List DetectionRow
deriving DecidableEq

/-- The fresh row created on first detection (`app.py:112-121`): both
timestamps are the save time. -/
def newRow (now : ℕ) (i : DeviceInfo) (raw : Chars) : YubiKeyRow :=
  ⟨i.serial, i.version, i.form_factor, i.device_type, i.is_fips, i.is_sky,
    now, now, raw⟩

/-- The in-place update applied to an existing row (`app.py:101-107`):
mutable fields and `last_seen` refreshed, `first_seen` untouched. -/
def updatedRow (r : YubiKeyRow) (now : ℕ) (i : DeviceInfo) (raw : Chars) :
    YubiKeyRow :=
  { r with
    version := i.version
    form_factor := i.form_factor
    device_type := i.device_type
    is_fips := i.is_fips
    is_sky := i.is_sky
    last_seen := now
    raw_info := raw }

/-- The upsert over the `yubikeys` table: update the first row with the
given serial (the unique-constrained lookup `filter_by(serial=...).first()`
of `app.py:97`), or append a fresh row when none exists. -/
def upsertRow (now : ℕ) (i : DeviceInfo) (raw : Chars) :
    List YubiKeyRow → List YubiKeyRow
  | [] => [newRow now i raw]
  | r :: rs =>
    if r.serial = i.serial then updatedRow r now i raw :: rs
    else r :: upsertRow now i raw rs

/-- Embeds `save_yubikey_to_db` (`app.py:93-137`) on the committed path:
upsert the device row and append one detection row in one transaction.
The rollback path leaves the state unchanged and is modelled at the call
site (`runCycle`) by recording no write. -/
def save_yubikey_to_db (now : ℕ) (i : DeviceInfo) (raw : Chars) (db : DB) :
    DB :=
  { yubikeys := upsertRow now i raw db.yubikeys
    detections := db.detections ++ [⟨i.serial, now, i⟩] }

/-- One poll cycle's oracle answers from the outside world:
`enumerate` is `ykman list --serials` (`none` models the raised
`ProbeError`: missing binary, timeout or non-zero exit), `info` is the
per-device `ykman --device <s> info` text, and `saveOk` tells whether the
database commit for that device succeeds or raises. -/
structure Env where
  enumerate : Option (List ℕ)
  info : ℕ → Option Chars
  saveOk : ℕ → Bool

/-- Set equality of two lists standing for Python sets (`current_serials
!= previous_serials`, `app.py:448`). -/
def setEqL (a b : List ℕ) : Bool :=
  a.all (fun x => decide (x ∈ b)) && b.all (fun x => decide (x ∈ a))

/-- The body of the per-serial loop of the monitor task
(`app.py:452-463`): on a successful fetch the parsed record is appended
to the broadcast list BEFORE the save, so a failing save leaves it there
and the handler appends the fallback record as well; a failing fetch
yields only the fallback record and attempts no save.  First component:
broadcast entries; second: committed writes `(record, raw text)`. -/
def processSerial (env : Env) (s : ℕ) :
    List DeviceInfo × List (DeviceInfo × Chars) :=
  match env.info s with
  | none => ([fallbackInfo s], [])
  | some raw =>
    let d := infoFromRaw s raw
    if env.saveOk s then ([d], [(d, raw)]) else ([d, fallbackInfo s], [])

/-- What one iteration of `yubikey_monitor_task`'s `while` loop produces:
the retained/updated previous set, the cycle's committed database writes,
and the list of `yubikeys_update` payloads emitted. -/
structure CycleOut where
  newPrev : List ℕ
  saves : List (DeviceInfo × Chars)
  broadcasts : List (List DeviceInfo)
deriving DecidableEq

/-- Embeds one iteration of `yubikey_monitor_task` (`app.py:437-472`).
Enumeration failure is caught by the outer handler: the cycle is skipped
and the previous set retained.  On success the serial list is made into a
set; an unchanged set is a no-op; a changed set runs the per-serial loop,
emits one payload with every entry collected, and adopts the current set. -/
def runCycle (env : Env) (prev : List ℕ) : CycleOut :=
  match env.enumerate with
  | none => ⟨prev, [], []⟩
  | some serials =>
    let current := serials.dedup
    if setEqL current prev then ⟨prev, [], []⟩
    else
      ⟨current, (current.map (fun s => (processSerial env s).2)).flatten,
        [(current.map (fun s => (processSerial env s).1)).flatten]⟩

/-- Runs consecutive monitor cycles, threading the previous-set state and
accumulating all writes and broadcasts. -/
def runCycles : List Env → List ℕ → List ℕ × List (DeviceInfo × Chars) × List (List DeviceInfo)
  | [], prev => (prev, [], [])
  | e :: es, prev =>
    let c := runCycle e prev
    let r := runCycles es c.newPrev
    (r.1, c.saves ++ r.2.1, c.broadcasts ++ r.2.2)

/-- The module-level notification state (`app.py:22-24`): whether the
background thread handle is set, how many times a loop was started (the
observable counter of §8 of the spec), and the client count. -/
structure FanoutState where
  threadStarted : Bool
  startCount : ℕ
  clients : ℤ
deriving DecidableEq

/-- The state before any client connects. -/
def initFanout : FanoutState := ⟨false, 0, 0⟩

/-- Embeds `handle_connect` (`app.py:475-482`).  The whole body runs
under `thread_lock`, so concurrent connects execute these steps in some
serial order; this function is one such atomic execution. -/
def handle_connect (st : FanoutState) : FanoutState :=
  let st1 : FanoutState := { st with clients := st.clients + 1 }
  if st1.threadStarted then st1
  else { st1 with threadStarted := true, startCount := st1.startCount + 1 }

/-- Embeds `handle_disconnect` (`app.py:485-490`): under the same lock,
decrement the client count; the thread handle is not touched. -/
def handle_disconnect (st : FanoutState) : FanoutState :=
  { st with clients := st.clients - 1 }

/-- A subscriber lifecycle event. -/
inductive SockEvent
  | connect
  | disconnect
deriving DecidableEq

/-- Dispatches one lock-serialized subscriber event. -/
def sockStep (st : FanoutState) : SockEvent → FanoutState
  | .connect => handle_connect st
  | .disconnect => handle_disconnect st

/-- Runs a serialized sequence of subscriber events. -/
def runEvents (st : FanoutState) (evs : List SockEvent) : FanoutState :=
  evs.foldl sockStep st

/-- A representative `ykman info` output, used to instantiate theorems
with hypotheses at concrete inputs. -/
def rawT : Chars :=
  "Firmware version: 5.4.3\nForm factor: USB-A Keychain\nDevice type: YubiKey 5".data

/-- A cycle whose enumeration command raises. -/
def envFail : Env := ⟨none, fun _ => none, fun _ => true⟩

/-- A cycle enumerating one device whose probe and save both succeed. -/
def envOne : Env := ⟨some [5], fun _ => some rawT, fun _ => true⟩

/-- A cycle enumerating one device whose per-device info fetch raises. -/
def envNoFetch : Env := ⟨some [1], fun _ => none, fun _ => true⟩

/-- A cycle enumerating two devices: the probe succeeds for serial 1 and
raises for serial 2. -/
def envMixed : Env :=
  ⟨some [1, 2], fun s => if s = 1 then some rawT else none, fun _ => true⟩

/-- A cycle enumerating one device whose probe succeeds but whose
database save raises. -/
def envSaveFail : Env := ⟨some [7], fun _ => some rawT, fun _ => false⟩

/-- Attributes of the demo device on a first sighting. -/
def devOld : DeviceInfo :=
  ⟨12345678, "5.4.2".data, "USB-A Keychain".data, "YubiKey 5".data, false, false⟩

/-- Attributes of the same device re-probed after a firmware change. -/
def devNew : DeviceInfo :=
  ⟨12345678, "5.4.3".data, "USB-A Keychain".data, "YubiKey 5".data, false, false⟩

/- ------------------------------------------------------------------ -/
/- Theorems.                                                           -/
/- ------------------------------------------------------------------ -/

/-- Unfolds `setEqL` to two-sided membership inclusion. -/
theorem setEqL_iff (a b : List ℕ) :
    setEqL a b = true ↔ (∀ x ∈ a, x ∈ b) ∧ (∀ x ∈ b, x ∈ a) := by
  simp [setEqL, List.all_eq_true]

/-- Two simultaneous prefixes of one list are comparable. -/
theorem prefixTotal : ∀ (l a b : Chars), a <+: l → b <+: l → a <+: b ∨ b <+: a := by
  intro l
  induction l with
  | nil =>
    intro a b ha _
    cases List.prefix_nil.mp ha
    exact Or.inl ⟨b, rfl⟩
  | cons c cs ih =>
    intro a b ha hb
    match a, b with
    | [], b => exact Or.inl ⟨b, rfl⟩
    | a, [] => exact Or.inr ⟨a, rfl⟩
    | x :: xs, y :: ys =>
      obtain ⟨rfl, ha'⟩ := List.cons_prefix_cons.mp ha
      obtain ⟨rfl, hb'⟩ := List.cons_prefix_cons.mp hb
      rcases ih xs ys ha' hb' with h | h
      · exact Or.inl (List.cons_prefix_cons.mpr ⟨rfl, h⟩)
      · exact Or.inr (List.cons_prefix_cons.mpr ⟨rfl, h⟩)

/-- No recognized label is a prefix of a different recognized label. -/
theorem label_not_prefix_label : ∀ (f g : YkField), f ≠ g → ¬(labelOf f <+: labelOf g) := by
  decide

/-- A stripped line begins with at most one recognized label. -/
theorem label_prefix_disjoint {f g : YkField} (hfg : f ≠ g) {l : Chars}
    (hf : labelOf f <+: l) (hg : labelOf g <+: l) : False := by
  rcases prefixTotal l (labelOf f) (labelOf g) hf hg with h | h
  · exact label_not_prefix_label f g hfg h
  · exact label_not_prefix_label g f (Ne.symm hfg) h

/-- One parser-loop iteration sets exactly the field whose label starts
the stripped line, and leaves every field alone otherwise. -/
theorem fieldOf_processLine (f : YkField) (info : YkInfo) (rawLine : Chars) :
    fieldOf f (processLine info rawLine) =
      if labelOf f <+: pyStrip rawLine then extractedValue rawLine
      else fieldOf f info := by
  cases f with
  | version =>
    simp only [processLine, labelOf, fieldOf, extractedValue]
    split_ifs with h1 h2 h3 <;> rfl
  | form =>
    simp only [processLine, labelOf, fieldOf, extractedValue]
    split_ifs with h1 h2 h2' h3 <;> first
      | rfl
      | exact absurd h2 (fun h => label_prefix_disjoint (by decide : YkField.version ≠ .form) h1 h)
  | device =>
    simp only [processLine, labelOf, fieldOf, extractedValue]
    split_ifs with h1 h2 h2' h3 h3' <;> first
      | rfl
      | exact absurd h2 (fun h => label_prefix_disjoint (by decide : YkField.version ≠ .device) h1 h)
      | exact absurd h3 (fun h => label_prefix_disjoint (by decide : YkField.form ≠ .device) h2' h)

/-- The parser fold is determined, field by field, by the last line whose
stripped form begins with the field's label. -/
theorem fieldOf_foldl (f : YkField) (lines : List Chars) (info : YkInfo) :
    fieldOf f (lines.foldl processLine info) =
      match lastMatch f lines with
      | some l => extractedValue l
      | none => fieldOf f info := by
  induction lines generalizing info with
  | nil => rfl
  | cons l ls ih =>
    rw [List.foldl_cons, ih (processLine info l)]
    unfold lastMatch
    rw [List.reverse_cons, List.find?_append]
    cases hm : ls.reverse.find? (fun l => decide (labelOf f <+: pyStrip l)) with
    | some x => simp [lastMatch, hm]
    | none =>
      by_cases hp : labelOf f <+: pyStrip l
      · simp [lastMatch, hm, List.find?, hp, fieldOf_processLine]
      · simp [lastMatch, hm, List.find?, hp, fieldOf_processLine]

/-- C2 (counterexample): first-match-wins fails on the code.  On an input
whose first `Firmware version:` line says `1.0` and whose last says
`2.0`, `parse_yubikey_info` reports `2.0`: each later matching line
overwrites the field, so the LAST matching line wins, not the first. -/
theorem parse_first_match_cex :
    (parse_yubikey_info "Firmware version: 1.0\nFirmware version: 2.0".data).version
        = "2.0".data
    ∧ (parse_yubikey_info "Firmware version: 1.0\nFirmware version: 2.0".data).version
        ≠ "1.0".data := by
  decide

/-- C2 (amended): `parse_yubikey_info` is total, and each of its three
fields equals the trimmed text after the first colon of the LAST line
whose stripped form begins with that field's label — last-match-wins —
falling back to the field's default when no line matches. -/
theorem parse_fields_last_match (text : Chars) (f : YkField) :
    fieldOf f (parse_yubikey_info text) =
      match lastMatch f (splitOnNL text) with
      | some l => extractedValue l
      | none => defaultOf f := by
  have hinit : fieldOf f initYkInfo = defaultOf f := by cases f <;> rfl
  rw [parse_yubikey_info, fieldOf_foldl, hinit]

/-- The executable substring scan agrees with the mathematical
contiguous-substring relation. -/
theorem containsSub_iff (needle hay : Chars) :
    containsSub needle hay = true ↔ needle <:+: hay := by
  induction hay with
  | nil => simp [containsSub, List.infix_nil]
  | cons c cs ih =>
    simp only [containsSub]
    by_cases hp : needle <+: c :: cs
    · simp [hp, List.infix_cons_iff]
    · simp [hp, ih, List.infix_cons_iff]

/-- C9: the capability flags the monitor attaches to a device record are
pure case-sensitive substring checks over the full raw text: `is_fips`
holds iff `FIPS` occurs contiguously anywhere in it, and `is_sky` iff
`SKY` does. -/
theorem capability_flags_substring (s : ℕ) (raw : Chars) :
    ((infoFromRaw s raw).is_fips = true ↔ "FIPS".data <:+: raw)
    ∧ ((infoFromRaw s raw).is_sky = true ↔ "SKY".data <:+: raw) :=
  ⟨containsSub_iff "FIPS".data raw, containsSub_iff "SKY".data raw⟩

/-- Every broadcast entry the per-serial loop produces for serial `s`
carries serial `s`. -/
theorem processSerial_fst_serial (env : Env) (s : ℕ) :
    ∀ d ∈ (processSerial env s).1, d.serial = s := by
  unfold processSerial
  cases h : env.info s with
  | none => simp [fallbackInfo]
  | some raw =>
    by_cases hs : env.saveOk s = true <;>
      simp [hs, infoFromRaw, fallbackInfo]

/-- The per-serial loop always contributes at least one broadcast entry. -/
theorem processSerial_fst_ne_nil (env : Env) (s : ℕ) :
    (processSerial env s).1 ≠ [] := by
  unfold processSerial
  cases h : env.info s with
  | none => simp
  | some raw => by_cases hs : env.saveOk s = true <;> simp [hs]

/-- Every committed write the per-serial loop produces for serial `s`
is a record carrying serial `s`. -/
theorem processSerial_snd_serial (env : Env) (s : ℕ) :
    ∀ p ∈ (processSerial env s).2, p.1.serial = s := by
  unfold processSerial
  cases h : env.info s with
  | none => simp
  | some raw =>
    by_cases hs : env.saveOk s = true <;> simp [hs, infoFromRaw]

/-- Unfolds one monitor cycle on the changed-set branch. -/
theorem runCycle_change (env : Env) (prev serials : List ℕ)
    (henum : env.enumerate = some serials)
    (hne : setEqL serials.dedup prev = false) :
    runCycle env prev =
      ⟨serials.dedup,
        (serials.dedup.map (fun s => (processSerial env s).2)).flatten,
        [(serials.dedup.map (fun s => (processSerial env s).1)).flatten]⟩ := by
  simp [runCycle, henum, hne]

/-- A run of cycles that all enumerate a set equal to the current state
is one long no-op: no writes, no broadcasts, state retained. -/
theorem runCycles_no_change (es : List Env) (P : List ℕ)
    (h : ∀ e ∈ es, ∃ s, e.enumerate = some s ∧ setEqL s.dedup P = true) :
    runCycles es P = (P, [], []) := by
  induction es with
  | nil => rfl
  | cons e es ih =>
    obtain ⟨s, hs, hset⟩ := h e (List.mem_cons_self e es)
    have hc : runCycle e P = ⟨P, [], []⟩ := by simp [runCycle, hs, hset]
    simp [runCycles, hc, ih (fun e' he' => h e' (List.mem_cons_of_mem _ he'))]

/-- C5: when enumeration raises, the cycle is skipped with the previous
set retained verbatim — fail-static, nothing written or broadcast and no
crash (the step is a total function); and whenever enumeration succeeds,
the state the cycle leaves behind holds exactly the identities that
successful poll reported. -/
theorem monitor_fail_static :
    (∀ (env : Env) (prev : List ℕ), env.enumerate = none →
        runCycle env prev = ⟨prev, [], []⟩)
    ∧ (∀ (env : Env) (prev serials : List ℕ), env.enumerate = some serials →
        ∀ s : ℕ, s ∈ (runCycle env prev).newPrev ↔ s ∈ serials) := by
  constructor
  · intro env prev h
    simp [runCycle, h]
  · intro env prev serials henum s
    by_cases hset : setEqL serials.dedup prev = true
    · have hmem := (setEqL_iff serials.dedup prev).mp hset
      have : runCycle env prev = ⟨prev, [], []⟩ := by simp [runCycle, henum, hset]
      rw [this]
      exact ⟨fun h => List.mem_dedup.mp (hmem.2 s h),
        fun h => hmem.1 s (List.mem_dedup.mpr h)⟩
    · have : (runCycle env prev).newPrev = serials.dedup := by
        rw [runCycle_change env prev serials henum (Bool.not_eq_true _ ▸ hset)]
      rw [this]
      exact List.mem_dedup

/-- C5 witness: both parts applied at concrete cycles. -/
theorem monitor_fail_static_witness :
    runCycle envFail [3] = ⟨[3], [], []⟩
    ∧ ((5 : ℕ) ∈ (runCycle envOne []).newPrev ↔ (5 : ℕ) ∈ [5]) :=
  ⟨monitor_fail_static.1 envFail [3] rfl,
    monitor_fail_static.2 envOne [] [5] rfl 5⟩

/-- C3: a cycle whose freshly enumerated set equals the previous set is
a pure no-op (no write, no broadcast, state kept); and over any run of
cycles that all successfully enumerate one and the same set differing
from the starting state, everything written and broadcast comes from the
first cycle — which emits exactly one broadcast — and later identical
cycles contribute nothing. -/
theorem monitor_idle_idempotent :
    (∀ (env : Env) (prev serials : List ℕ),
        env.enumerate = some serials → setEqL serials.dedup prev = true →
        runCycle env prev = ⟨prev, [], []⟩)
    ∧ (∀ (e : Env) (es : List Env) (prev serials : List ℕ),
        e.enumerate = some serials → setEqL serials.dedup prev = false →
        (∀ e' ∈ es, ∃ s', e'.enumerate = some s'
          ∧ setEqL s'.dedup serials.dedup = true) →
        runCycles (e :: es) prev
            = (serials.dedup, (runCycle e prev).saves, (runCycle e prev).broadcasts)
          ∧ (runCycle e prev).broadcasts.length = 1) := by
  constructor
  · intro env prev serials henum hset
    simp [runCycle, henum, hset]
  · intro e es prev serials henum hne hall
    have hc := runCycle_change e prev serials henum hne
    have hnp : (runCycle e prev).newPrev = serials.dedup := by rw [hc]
    constructor
    · simp only [runCycles, hnp, runCycles_no_change es serials.dedup hall]
      simp
    · rw [hc]
      rfl

/-- C3 witness: two identical successful polls starting from the empty
set: all output comes from the first cycle and there is one broadcast;
and a cycle re-enumerating the very set already held is a no-op. -/
theorem monitor_idle_idempotent_witness :
    (runCycles [envOne, envOne] []
        = ([5], (runCycle envOne []).saves, (runCycle envOne []).broadcasts)
      ∧ (runCycle envOne []).broadcasts.length = 1)
    ∧ runCycle envOne [5] = ⟨[5], [], []⟩ :=
  ⟨monitor_idle_idempotent.2 envOne [envOne] [] [5] rfl (by decide)
      (fun e' he' => by
        rw [List.mem_singleton.mp he']
        exact ⟨[5], rfl, by decide⟩),
    monitor_idle_idempotent.1 envOne [5] [5] rfl (by decide)⟩

/-- C4: on every changed-set cycle exactly one broadcast goes out, and
every enumerated identity appears in its payload — the ones whose
per-device fetch raised included (they appear as the fallback record);
no enumerated device is dropped from the broadcast. -/
theorem monitor_broadcast_complete (env : Env) (prev serials : List ℕ)
    (henum : env.enumerate = some serials)
    (hne : setEqL serials.dedup prev = false) :
    ∃ payload, (runCycle env prev).broadcasts = [payload]
      ∧ ∀ s ∈ serials, ∃ d ∈ payload, d.serial = s := by
  have hc := runCycle_change env prev serials henum hne
  refine ⟨_, by rw [hc], ?_⟩
  intro s hs
  obtain ⟨d, hd⟩ :=
    List.exists_mem_of_ne_nil _ (processSerial_fst_ne_nil env s)
  refine ⟨d, ?_, processSerial_fst_serial env s d hd⟩
  exact List.mem_flatten.mpr
    ⟨(processSerial env s).1,
      List.mem_map_of_mem _ (List.mem_dedup.mpr hs), hd⟩

/-- C4 witness: two devices, the second one's probe raising; both appear
in the single broadcast payload. -/
theorem monitor_broadcast_complete_witness :
    ∃ payload, (runCycle envMixed []).broadcasts = [payload]
      ∧ ∀ s ∈ [1, 2], ∃ d ∈ payload, d.serial = s :=
  monitor_broadcast_complete envMixed [] [1, 2] rfl (by decide)

/-- C1 (counterexample): a changed-set cycle enumerating device 1 whose
per-device fetch raises broadcasts its fallback record but persists
NOTHING — the monitor loop's error handler only appends to the broadcast
list and never calls `save_yubikey_to_db`, contradicting the claim that
fetch-failed identities are persisted with the error text as payload. -/
theorem monitor_fallback_not_persisted_cex :
    setEqL ([1] : List ℕ).dedup [] = false
    ∧ (runCycle envNoFetch []).broadcasts = [[fallbackInfo 1]]
    ∧ (runCycle envNoFetch []).saves = [] := by
  decide

/-- C1 (amended): on a changed-set cycle, an enumerated identity is
persisted (upsert plus detection event, with its raw info text) exactly
when its per-device fetch succeeds and its save commits; an identity
whose fetch raised gets no persistence write at all — it appears only in
the broadcast as the all-unknown fallback record. -/
theorem monitor_persists_fetched_only (env : Env) (prev serials : List ℕ)
    (s : ℕ) (henum : env.enumerate = some serials)
    (hne : setEqL serials.dedup prev = false) (hs : s ∈ serials) :
    (∀ raw, env.info s = some raw → env.saveOk s = true →
        (infoFromRaw s raw, raw) ∈ (runCycle env prev).saves)
    ∧ (env.info s = none →
        ∀ p ∈ (runCycle env prev).saves, p.1.serial ≠ s) := by
  have hc := runCycle_change env prev serials henum hne
  constructor
  · intro raw hraw hok
    rw [hc]
    refine List.mem_flatten.mpr
      ⟨(processSerial env s).2,
        List.mem_map_of_mem _ (List.mem_dedup.mpr hs), ?_⟩
    simp [processSerial, hraw, hok]
  · intro hnone p hp
    rw [hc] at hp
    obtain ⟨blk, hblk, hpblk⟩ := List.mem_flatten.mp hp
    obtain ⟨t, _, rfl⟩ := List.mem_map.mp hblk
    intro hserial
    have ht : t = s := (processSerial_snd_serial env t p hpblk).symm.trans hserial
    rw [ht] at hpblk
    simp [processSerial, hnone] at hpblk

/-- C1 witness: the amended theorem applied to the two-device cycle —
device 1 (fetch and save succeed) has its parsed record and raw text in
the cycle's writes; device 2 (fetch raised) has no write at all. -/
theorem monitor_persists_fetched_only_witness :
    (infoFromRaw 1 rawT, rawT) ∈ (runCycle envMixed []).saves
    ∧ ∀ p ∈ (runCycle envMixed []).saves, p.1.serial ≠ 2 :=
  ⟨(monitor_persists_fetched_only envMixed [] [1, 2] 1 rfl (by decide)
      (by decide)).1 rawT rfl rfl,
    (monitor_persists_fetched_only envMixed [] [1, 2] 2 rfl (by decide)
      (by decide)).2 rfl⟩

/-- Filtering a flattened block list where every block dies under the
filter yields nothing. -/
theorem filter_flatten_nil (p : DeviceInfo → Bool) (g : ℕ → List DeviceInfo)
    (l : List ℕ) (h : ∀ t ∈ l, (g t).filter p = []) :
    ((l.map g).flatten).filter p = [] := by
  induction l with
  | nil => rfl
  | cons t ts ih =>
    simp only [List.map_cons, List.flatten_cons, List.filter_append,
      h t (List.mem_cons_self t ts),
      ih (fun u hu => h u (List.mem_cons_of_mem _ hu)), List.nil_append]

/-- Filtering a flattened block list built over a duplicate-free index
list keeps exactly the one surviving block. -/
theorem filter_flatten_single (p : DeviceInfo → Bool) (g : ℕ → List DeviceInfo)
    (l : List ℕ) (s : ℕ) (hnd : l.Nodup) (hs : s ∈ l)
    (hothers : ∀ t ∈ l, t ≠ s → (g t).filter p = [])
    (hself : (g s).filter p = g s) :
    ((l.map g).flatten).filter p = g s := by
  induction l with
  | nil => cases hs
  | cons t ts ih =>
    rcases List.mem_cons.mp hs with rfl | hs'
    · have hts : ∀ u ∈ ts, (g u).filter p = [] := by
        intro u hu
        have hut : u ≠ s := fun h => (List.nodup_cons.mp hnd).1 (h ▸ hu)
        exact hothers u (List.mem_cons_of_mem _ hu) hut
      simp only [List.map_cons, List.flatten_cons, List.filter_append,
        hself, filter_flatten_nil p g ts hts, List.append_nil]
    · have ht : t ≠ s := by
        intro h
        exact (List.nodup_cons.mp hnd).1 (h ▸ hs')
      simp only [List.map_cons, List.flatten_cons, List.filter_append,
        hothers t (List.mem_cons_self t ts) ht,
        ih (List.nodup_cons.mp hnd).2 hs'
          (fun u hu h' => hothers u (List.mem_cons_of_mem _ hu) h'),
        List.nil_append]

/-- C10: when the fetch and parse for an identity succeed but its
database save raises, the cycle's broadcast payload lists that identity
twice — first its parsed record (appended before the save), then the
all-unknown fallback appended by the error handler. -/
theorem monitor_double_entry (env : Env) (prev serials : List ℕ) (s : ℕ)
    (raw : Chars) (henum : env.enumerate = some serials)
    (hne : setEqL serials.dedup prev = false) (hs : s ∈ serials)
    (hinfo : env.info s = some raw) (hsave : env.saveOk s = false) :
    ∃ payload, (runCycle env prev).broadcasts = [payload]
      ∧ payload.filter (fun d => decide (d.serial = s))
          = [infoFromRaw s raw, fallbackInfo s] := by
  have hc := runCycle_change env prev serials henum hne
  refine ⟨_, by rw [hc], ?_⟩
  have hgs : (processSerial env s).1 = [infoFromRaw s raw, fallbackInfo s] := by
    simp [processSerial, hinfo, hsave]
  rw [filter_flatten_single (fun d => decide (d.serial = s))
      (fun t => (processSerial env t).1) serials.dedup s
      (List.nodup_dedup serials) (List.mem_dedup.mpr hs) ?_ ?_, hgs]
  · intro t _ hts
    refine List.filter_eq_nil_iff.mpr ?_
    intro d hd
    simp [processSerial_fst_serial env t d hd, hts]
  · refine List.filter_eq_self.mpr ?_
    intro d hd
    have hd2 : d ∈ (processSerial env s).1 := hd
    rw [hgs] at hd2
    rcases List.mem_cons.mp hd2 with rfl | hd'
    · simp [infoFromRaw]
    · rw [List.mem_singleton.mp hd']
      simp [fallbackInfo]

/-- C10 witness: one device whose save raises; the single payload holds
its parsed record followed by the fallback record. -/
theorem monitor_double_entry_witness :
    ∃ payload, (runCycle envSaveFail []).broadcasts = [payload]
      ∧ payload.filter (fun d => decide (d.serial = 7))
          = [infoFromRaw 7 rawT, fallbackInfo 7] :=
  monitor_double_entry envSaveFail [] [7] 7 rawT rfl (by decide)
    (by decide) rfl rfl

/-- Upserting a serial absent from the table appends a fresh row. -/
theorem upsertRow_absent (now : ℕ) (i : DeviceInfo) (raw : Chars)
    (l : List YubiKeyRow) (h : ∀ r ∈ l, r.serial ≠ i.serial) :
    upsertRow now i raw l = l ++ [newRow now i raw] := by
  induction l with
  | nil => rfl
  | cons r rs ih =>
    simp only [upsertRow, h r (List.mem_cons_self r rs), if_false,
      ih (fun r' h' => h r' (List.mem_cons_of_mem _ h')), List.cons_append]

/-- Upserting a serial whose unique row sits at the end of the table
updates that row in place. -/
theorem upsertRow_update_last (now : ℕ) (i : DeviceInfo) (raw : Chars)
    (l : List YubiKeyRow) (r0 : YubiKeyRow)
    (h : ∀ r ∈ l, r.serial ≠ i.serial) (h0 : r0.serial = i.serial) :
    upsertRow now i raw (l ++ [r0]) = l ++ [updatedRow r0 now i raw] := by
  induction l with
  | nil => simp [upsertRow, h0]
  | cons r rs ih =>
    simp only [List.cons_append, upsertRow, h r (List.mem_cons_self r rs),
      if_false, List.append_eq,
      ih (fun r' h' => h r' (List.mem_cons_of_mem _ h'))]

/-- C7: `save_yubikey_to_db` is a true upsert.  Saving one identity
twice into a table that did not know it leaves exactly one device row
for it, whose firmware (and raw text) is the later save's value, whose
`first_seen` is the first save time and whose `last_seen` is the second;
and every single save appends exactly one detection row (so the two
saves append two, the first snapshotting the first attributes). -/
theorem save_upsert_true_upsert (db₀ : DB) (i₁ i₂ : DeviceInfo)
    (raw₁ raw₂ : Chars) (t₁ t₂ : ℕ) (hser : i₂.serial = i₁.serial)
    (habsent : ∀ r ∈ db₀.yubikeys, r.serial ≠ i₁.serial) :
    (((save_yubikey_to_db t₂ i₂ raw₂ (save_yubikey_to_db t₁ i₁ raw₁ db₀)).yubikeys.filter
        (fun r => decide (r.serial = i₁.serial))).length = 1
      ∧ (∀ r ∈ (save_yubikey_to_db t₂ i₂ raw₂ (save_yubikey_to_db t₁ i₁ raw₁ db₀)).yubikeys,
          r.serial = i₁.serial →
          r.version = i₂.version ∧ r.first_seen = t₁ ∧ r.last_seen = t₂
            ∧ r.raw_info = raw₂)
      ∧ (save_yubikey_to_db t₂ i₂ raw₂ (save_yubikey_to_db t₁ i₁ raw₁ db₀)).detections
          = db₀.detections ++ [⟨i₁.serial, t₁, i₁⟩, ⟨i₁.serial, t₂, i₂⟩])
    ∧ (∀ (db : DB) (t : ℕ) (i : DeviceInfo) (raw : Chars),
        (save_yubikey_to_db t i raw db).detections
          = db.detections ++ [⟨i.serial, t, i⟩]) := by
  have h1 : (save_yubikey_to_db t₁ i₁ raw₁ db₀).yubikeys
      = db₀.yubikeys ++ [newRow t₁ i₁ raw₁] :=
    upsertRow_absent t₁ i₁ raw₁ db₀.yubikeys habsent
  have habs2 : ∀ r ∈ db₀.yubikeys, r.serial ≠ i₂.serial := by
    intro r hr
    rw [hser]
    exact habsent r hr
  have h2 : (save_yubikey_to_db t₂ i₂ raw₂ (save_yubikey_to_db t₁ i₁ raw₁ db₀)).yubikeys
      = db₀.yubikeys ++ [updatedRow (newRow t₁ i₁ raw₁) t₂ i₂ raw₂] := by
    show upsertRow t₂ i₂ raw₂ (save_yubikey_to_db t₁ i₁ raw₁ db₀).yubikeys = _
    rw [h1]
    exact upsertRow_update_last t₂ i₂ raw₂ db₀.yubikeys _ habs2 hser.symm
  refine ⟨⟨?_, ?_, ?_⟩, fun db t i raw => rfl⟩
  · rw [h2, List.filter_append,
      List.filter_eq_nil_iff.mpr (fun r hr => by simp [habsent r hr])]
    simp [updatedRow, newRow]
  · intro r hr hrs
    rw [h2] at hr
    rcases List.mem_append.mp hr with hr' | hr'
    · exact absurd hrs (habsent r hr')
    · rw [List.mem_singleton.mp hr']
      exact ⟨rfl, rfl, rfl, rfl⟩
  · show ((save_yubikey_to_db t₁ i₁ raw₁ db₀).detections ++ _) = _
    show ((db₀.detections ++ [⟨i₁.serial, t₁, i₁⟩]) ++ [⟨i₂.serial, t₂, i₂⟩]) = _
    rw [hser, List.append_assoc]
    rfl

/-- C7 witness: the demo serial saved twice with firmware 5.4.2 then
5.4.3 into an empty database. -/
theorem save_upsert_true_upsert_witness :
    (((save_yubikey_to_db 20 devNew "B".data (save_yubikey_to_db 10 devOld "A".data ⟨[], []⟩)).yubikeys.filter
        (fun r => decide (r.serial = devOld.serial))).length = 1
      ∧ (∀ r ∈ (save_yubikey_to_db 20 devNew "B".data (save_yubikey_to_db 10 devOld "A".data ⟨[], []⟩)).yubikeys,
          r.serial = devOld.serial →
          r.version = devNew.version ∧ r.first_seen = 10 ∧ r.last_seen = 20
            ∧ r.raw_info = "B".data)
      ∧ (save_yubikey_to_db 20 devNew "B".data (save_yubikey_to_db 10 devOld "A".data ⟨[], []⟩)).detections
          = (⟨[], []⟩ : DB).detections
              ++ [⟨devOld.serial, 10, devOld⟩, ⟨devOld.serial, 20, devNew⟩])
    ∧ (∀ (db : DB) (t : ℕ) (i : DeviceInfo) (raw : Chars),
        (save_yubikey_to_db t i raw db).detections
          = db.detections ++ [⟨i.serial, t, i⟩]) :=
  save_upsert_true_upsert ⟨[], []⟩ devOld devNew "A".data "B".data 10 20
    rfl (by simp)

/-- Iterated connects on an already-started state never start another
loop: the counter and flag are preserved. -/
theorem iterate_connect_preserves (m : ℕ) (st : FanoutState)
    (h : st.threadStarted = true) :
    (handle_connect^[m] st).startCount = st.startCount
      ∧ (handle_connect^[m] st).threadStarted = true := by
  induction m generalizing st with
  | zero => exact ⟨rfl, h⟩
  | succ m ih =>
    rw [Function.iterate_succ_apply]
    have hc : handle_connect st = { st with clients := st.clients + 1 } := by
      simp [handle_connect, h]
    rw [hc]
    exact ih { st with clients := st.clients + 1 } h

/-- C6: with the handler bodies serialized by `thread_lock`, any number
`n` of concurrent connect events execute as `n` iterated atomic
check-and-sets from the initial state, and start the background poll
loop exactly once as soon as `n ≥ 1` (and never twice): the loop-start
counter ends at `min n 1` and the thread handle is set iff `n ≥ 1`. -/
theorem connect_starts_loop_once (n : ℕ) :
    (handle_connect^[n] initFanout).startCount = min n 1
    ∧ (handle_connect^[n] initFanout).threadStarted = decide (0 < n) := by
  cases n with
  | zero => exact ⟨rfl, rfl⟩
  | succ m =>
    rw [Function.iterate_succ_apply]
    have h0 : handle_connect initFanout = ⟨true, 1, 1⟩ := rfl
    rw [h0]
    obtain ⟨h1, h2⟩ := iterate_connect_preserves m ⟨true, 1, 1⟩ rfl
    refine ⟨?_, by simp [h2]⟩
    rw [h1]
    simp [Nat.min_eq_right (Nat.succ_le_succ (Nat.zero_le m))]

/-- One serialized subscriber event cannot clear a set thread handle. -/
theorem sockStep_started (st : FanoutState) (e : SockEvent)
    (h : st.threadStarted = true) : (sockStep st e).threadStarted = true := by
  cases e with
  | connect => simp [sockStep, handle_connect, h]
  | disconnect => exact h

/-- Events after a start preserve the running loop. -/
theorem runEvents_started (evs : List SockEvent) (st : FanoutState)
    (h : st.threadStarted = true) : (runEvents st evs).threadStarted = true := by
  induction evs generalizing st with
  | nil => exact h
  | cons e es ih => exact ih (sockStep st e) (sockStep_started st e h)

/-- C8: the poll loop, once started, is never stopped.  A disconnect
only decrements the subscriber count, leaving the thread handle and the
start counter untouched; and through any further sequence of connects
and disconnects — including ones driving the count to zero or below —
the thread handle stays set. -/
theorem loop_never_stopped :
    (∀ st : FanoutState, handle_disconnect st
        = ⟨st.threadStarted, st.startCount, st.clients - 1⟩)
    ∧ (∀ (st : FanoutState) (evs : List SockEvent),
        st.threadStarted = true → (runEvents st evs).threadStarted = true) := by
  exact ⟨fun st => rfl, fun st evs h => runEvents_started evs st h⟩

/-- C8 witness: from a started state with one subscriber, two
disconnects (count reaching zero and below) leave the loop running. -/
theorem loop_never_stopped_witness :
    handle_disconnect ⟨true, 1, 1⟩ = ⟨true, 1, (1 : ℤ) - 1⟩
    ∧ (runEvents ⟨true, 1, 1⟩ [SockEvent.disconnect, SockEvent.disconnect]).threadStarted
        = true :=
  ⟨loop_never_stopped.1 ⟨true, 1, 1⟩,
    loop_never_stopped.2 ⟨true, 1, 1⟩ [SockEvent.disconnect, SockEvent.disconnect] rfl⟩

end YkSpec
